import Mathlib

/-!
Verification of the DriftDB client protocol types and demo reducer.

Shallow embedding of:
- `src/js-pkg/driftdb/src/types.ts` (protocol message types),
- `src/js-pkg/demos/src/pages/voxel.tsx` (`voxelReducer`),
- the stream-registry operations (`onPush`, `onInit`), which are not in the
  provided sources and are therefore modelled from the specification.

TypeScript `number` fields are embedded as `Int` (the code places no sign
restriction on them); `any`-typed payloads are embedded as a type parameter
`V`. Keys are strings.
-/

namespace DriftDB

/-- From types.ts: `Action = {type:'append'|'replace'|'relay'} | {type:'compact', seq}`.
The `compact` variant is the only one carrying a sequence number. -/
inductive Action where
  | append : Action
  | replace : Action
  | relay : Action
  | compact (seq : Int) : Action
deriving DecidableEq, Repr

/-- Whether an action is the `compact` variant. -/
def Action.isCompact : Action → Bool
  | .compact _ => true
  | _ => false

/-- From types.ts: `SequenceValue {value: any, seq: SequenceNumber}`,
with `SequenceNumber = number` embedded as `Int`. -/
structure SequenceValue (V : Type) where
  value : V
  seq : Int
deriving DecidableEq, Repr

/-- From types.ts: `MessageFromDb`, the server-to-client message family. -/
inductive MessageFromDb (V : Type) where
  | push (key : String) (value : SequenceValue V) : MessageFromDb V
  | init (data : List (SequenceValue V)) (key : String) : MessageFromDb V
  | error (message : String) : MessageFromDb V
  | streamSize (key : String) (size : Int) : MessageFromDb V
deriving DecidableEq, Repr

/-- From types.ts: `MessageToDb`, the client-to-server message family. -/
inductive MessageToDb (V : Type) where
  | push (key : String) (action : Action) (value : V) : MessageToDb V
  | get (key : String) (seq : Int) : MessageToDb V
deriving DecidableEq, Repr

/-- The action carried by a `push` message to the server, if any. -/
def MessageToDb.pushAction : MessageToDb V → Option Action
  | .push _ a _ => some a
  | .get _ _ => none

/-- From types.ts: `ConnectionStatus = {connected:false} | {connected:true, debugUrl}`. -/
inductive ConnectionStatus where
  | disconnected : ConnectionStatus
  | connected (debugUrl : String) : ConnectionStatus
deriving DecidableEq, Repr

/-- From voxel.tsx: a voxel has a `Vector3Tuple` position, a color and an
opacity.  Color is an arbitrary payload (`any` in the source, here a
string); opacity is a `number` (the demo uses 1 and 0.5), embedded as a
rational. -/
structure Voxel where
  position : Int × Int × Int
  color : String
  opacity : Rat
deriving DecidableEq, Repr

/-- From voxel.tsx: `action.voxel.position.join(':')`. -/
def posKey (p : Int × Int × Int) : String :=
  toString p.1 ++ ":" ++ toString p.2.1 ++ ":" ++ toString p.2.2

/-- From voxel.tsx: `VoxelAction = {type:'add', voxel} | {type:'remove', name}`. -/
inductive VoxelAction where
  | add (voxel : Voxel) : VoxelAction
  | remove (name : String) : VoxelAction
deriving DecidableEq, Repr

/-- A JavaScript `Record<string, Voxel>` as an insertion-ordered list of
key–value entries.  In JavaScript the keys of a record are unique; the
operations below preserve that invariant and agree with the object
semantics on every state reachable from a record literal. -/
abbrev VoxelRecord := List (String × Voxel)

/-- The spread update `{...state, [key]: voxel}`: an existing key keeps its
place and its value is overwritten; a fresh key is appended at the end. -/
def objSet (s : VoxelRecord) (k : String) (v : Voxel) : VoxelRecord :=
  match s with
  | [] => [(k, v)]
  | (k', v') :: rest =>
      if k' = k then (k, v) :: rest else (k', v') :: objSet rest k v

/-- The update `delete newState[name]` on a copy of the record: the entry
under `name` is removed, every other entry is untouched. -/
def objDelete (s : VoxelRecord) (k : String) : VoxelRecord :=
  match s with
  | [] => []
  | (k', v') :: rest =>
      if k' = k then objDelete rest k else (k', v') :: objDelete rest k

/-- JavaScript property read `s[k]`. -/
def objLookup (s : VoxelRecord) (k : String) : Option Voxel :=
  match s with
  | [] => none
  | (k', v') :: rest => if k' = k then some v' else objLookup rest k

/-- From voxel.tsx: the reducer.  `add` writes the voxel under the key
`position.join(':')` by spread; `remove` deletes the named entry; any other
action returns the state unchanged (the fallthrough is unreachable for the
two-variant action type). -/
def voxelReducer (state : VoxelRecord) (action : VoxelAction) : VoxelRecord :=
  match action with
  | .add voxel => objSet state (posKey voxel.position) voxel
  | .remove name => objDelete state name

/-- Modelled from the spec: the per-Key client stream state of §3 / §4.3
(the stream-registry implementation is not among the provided sources) —
the highest seen sequence number and the buffer of pending out-of-order
values, kept sorted by seq.  Sequence numbers are the `Int` embedding of
`SequenceNumber`; `highest_seen` starts at 0 (`last_known_or_zero`). -/
structure StreamState (V : Type) where
  highest_seen : Int
  pending : List (SequenceValue V)
deriving DecidableEq, Repr

/-- Modelled from the spec (§4.3): buffering an out-of-order value keeps
the pending buffer sorted by seq; a value whose seq is already buffered
overwrites that slot (a SequenceValue is immutable once observed, so both
carry the same payload). -/
def insertPending (v : SequenceValue V) :
    List (SequenceValue V) → List (SequenceValue V)
  | [] => [v]
  | w :: rest =>
    if v.seq < w.seq then v :: w :: rest
    else if v.seq = w.seq then v :: rest
    else w :: insertPending v rest

/-- Modelled from the spec (§4.3): once the gap closes, buffered entries
are drained in increasing-seq order; consecutive entries continuing `h`
are applied and `highest_seen` advances past them.  Returns the new
highest seen seq, the drained (applied) entries in order, and the
remaining buffer. -/
def drainPending (h : Int) :
    List (SequenceValue V) →
      Int × List (SequenceValue V) × List (SequenceValue V)
  | [] => (h, [], [])
  | w :: rest =>
    if w.seq = h + 1 then
      ((drainPending w.seq rest).1,
        w :: (drainPending w.seq rest).2.1,
        (drainPending w.seq rest).2.2)
    else (h, [], w :: rest)

/-- The outcome of one `onPush` step: the updated stream state, the values
applied to the reducer (in application order), and the messages sent to
the server. -/
structure PushResult (V : Type) where
  stream : StreamState V
  applied : List (SequenceValue V)
  sent : List (MessageToDb V)
deriving DecidableEq, Repr

/-- Modelled from the spec (§4.3 `onPush`): if `value.seq` equals
`highest_seen + 1`, apply immediately, advance, and drain any buffered
entries that have become consecutive; if `value.seq ≤ highest_seen`,
discard as a duplicate; otherwise buffer the value and emit
`get(key, highest_seen + 1)` to request the missing range. -/
def onPush (key : String) (st : StreamState V) (v : SequenceValue V) :
    PushResult V :=
  if v.seq = st.highest_seen + 1 then
    ⟨⟨(drainPending v.seq st.pending).1, (drainPending v.seq st.pending).2.2⟩,
      v :: (drainPending v.seq st.pending).2.1, []⟩
  else if v.seq ≤ st.highest_seen then ⟨st, [], []⟩
  else ⟨⟨st.highest_seen, insertPending v st.pending⟩, [],
    [.get key (st.highest_seen + 1)]⟩

/-- Sequence numbers of a value list are strictly increasing. -/
abbrev seqSorted (l : List (SequenceValue V)) : Prop :=
  List.Pairwise (fun a b => a.seq < b.seq) l

/-- Invariant of a stream state between `onPush` calls: the pending buffer
is sorted by seq and only holds values strictly beyond the gap (their seq
exceeds `highest_seen + 1`; a value at exactly `highest_seen + 1` would
have been applied). -/
abbrev pendingInv (st : StreamState V) : Prop :=
  seqSorted st.pending ∧ ∀ w ∈ st.pending, st.highest_seen + 1 < w.seq

/-- The claimed case split of `onPush` on `v.seq` against `highest_seen`:
duplicates are discarded with state unchanged and nothing sent; the
successor seq is applied immediately (heading the applied list) with
`highest_seen` advancing and nothing sent; a seq beyond the gap is
buffered, nothing is applied, and a single `get(key, highest_seen+1)` is
emitted; and in every case the applied values are drained in
strictly-increasing seq order, all of them beyond the old `highest_seen`
(so no earlier value is ever applied twice). -/
def onPushClaim (key : String) (st : StreamState V) (v : SequenceValue V) :
    Prop :=
  (v.seq ≤ st.highest_seen → onPush key st v = ⟨st, [], []⟩) ∧
  (v.seq = st.highest_seen + 1 →
    (∃ rest, (onPush key st v).applied = v :: rest) ∧
    st.highest_seen < (onPush key st v).stream.highest_seen ∧
    (onPush key st v).sent = []) ∧
  (st.highest_seen + 1 < v.seq →
    (onPush key st v).applied = [] ∧
    (onPush key st v).sent = [.get key (st.highest_seen + 1)] ∧
    v ∈ (onPush key st v).stream.pending) ∧
  seqSorted (onPush key st v).applied ∧
  (∀ w ∈ (onPush key st v).applied, st.highest_seen < w.seq)

/-- The materialized client view of one Key: the stream bookkeeping, the
reducer state, and the trace of SequenceValues applied (in order) to
produce it. -/
structure KeyClient (V S : Type) where
  stream : StreamState V
  material : S
  appliedLog : List (SequenceValue V)

/-- The highest seq in a backlog (0 for an empty one). -/
def backlogTop (b : List (SequenceValue V)) : Int :=
  (b.map SequenceValue.seq).foldl max 0

/-- Modelled from the spec (§4.3 `onInit`, §4.4): `onInit` replaces the
stream's value sequence with the authoritative backlog, resets the highest
seen seq, clears the pending buffer, and replays the reducer from scratch
over the full backlog: the materialized state is the fold of the reducer
over exactly the backlog entries, which become the applied trace of the
fresh materialization. -/
def onInit (reduce : S → V → S) (ini : S) (_c : KeyClient V S)
    (b : List (SequenceValue V)) : KeyClient V S :=
  ⟨⟨backlogTop b, []⟩, b.foldl (fun s w => reduce s w.value) ini, b⟩

end DriftDB

namespace DriftDB

theorem objSet_objSet (s : VoxelRecord) (k : String) (v1 v2 : Voxel) :
    objSet (objSet s k v1) k v2 = objSet s k v2 := by
  induction s with
  | nil => simp [objSet]
  | cons hd tl ih =>
      obtain ⟨k', v'⟩ := hd
      by_cases h : k' = k
      · simp [objSet, h]
      · simp [objSet, h, ih]

theorem objLookup_objDelete_self (s : VoxelRecord) (k : String) :
    objLookup (objDelete s k) k = none := by
  induction s with
  | nil => simp [objDelete, objLookup]
  | cons hd tl ih =>
      obtain ⟨k', v'⟩ := hd
      by_cases h : k' = k
      · simp [objDelete, h, ih]
      · simp [objDelete, objLookup, h, ih]

theorem objLookup_objDelete_other (s : VoxelRecord) (k n : String)
    (h : k ≠ n) : objLookup (objDelete s n) k = objLookup s k := by
  induction s with
  | nil => simp [objDelete]
  | cons hd tl ih =>
      obtain ⟨k', v'⟩ := hd
      by_cases h' : k' = n
      · subst h'
        simp [objDelete, objLookup, Ne.symm h, ih]
      · simp [objDelete, objLookup, h', ih]

theorem objDelete_absent (s : VoxelRecord) (k : String)
    (h : objLookup s k = none) : objDelete s k = s := by
  induction s with
  | nil => simp [objDelete]
  | cons hd tl ih =>
      obtain ⟨k', v'⟩ := hd
      by_cases h' : k' = k
      · simp [objLookup, h'] at h
      · simp [objLookup, h'] at h
        simp [objDelete, h', ih h]

theorem objDelete_objSet_absent (s : VoxelRecord) (k : String) (v : Voxel)
    (h : objLookup s k = none) : objDelete (objSet s k v) k = s := by
  induction s with
  | nil => simp [objSet, objDelete]
  | cons hd tl ih =>
      obtain ⟨k', v'⟩ := hd
      by_cases h' : k' = k
      · simp [objLookup, h'] at h
      · simp [objLookup, h'] at h
        simp [objSet, objDelete, h', ih h]

/-- C1: the claim states that a client-to-server `push` never carries the
`compact` action.  The `MessageToDb` type does not enforce this: the
`action` field ranges over all of `Action`, and the concrete message
`push "k" (compact 5) 0` is a well-typed member of the type. -/
theorem claim1_counterexample :
    ¬ (∀ (m : MessageToDb Nat) (a : Action),
        m.pushAction = some a → a.isCompact = false) := by
  intro h
  have := h (.push "k" (.compact 5) 0) (.compact 5) rfl
  simp [Action.isCompact] at this

/-- C1 (amended): the `action` field of a client-to-server `push` is one of
`append`, `replace`, `relay`, or `compact seq`; the type does not exclude
`compact`, whose inbound-only status is a protocol convention rather than a
constraint of `MessageToDb`.  Moreover every action, `compact` included, is
carried by some well-typed `push` message. -/
theorem claim1_push_action_range (m : MessageToDb Nat) (a : Action)
    (h : m.pushAction = some a) :
    (a = .append ∨ a = .replace ∨ a = .relay ∨ ∃ s, a = .compact s) ∧
      ∃ m' : MessageToDb Nat, m'.pushAction = some a := by
  refine ⟨?_, ⟨.push "k" a 0, rfl⟩⟩
  cases a with
  | append => exact Or.inl rfl
  | replace => exact Or.inr (Or.inl rfl)
  | relay => exact Or.inr (Or.inr (Or.inl rfl))
  | compact s => exact Or.inr (Or.inr (Or.inr ⟨s, rfl⟩))

/-- C1 witness: the amended statement at the concrete message
`push "k" append 7`. -/
theorem claim1_push_action_range_witness :
    ((Action.append = .append ∨ Action.append = .replace ∨
        Action.append = .relay ∨ ∃ s, Action.append = .compact s) ∧
      ∃ m' : MessageToDb Nat, m'.pushAction = some .append) :=
  claim1_push_action_range (.push "k" .append 7) .append rfl

/-- C4: every server-to-client message is exactly one of the four tagged
variants: `push key value`, `init data key`, `error message`, or
`stream_size key size`. -/
theorem claim4_messageFromDb_variants (m : MessageFromDb Nat) :
    (∃ k v, m = .push k v) ∨ (∃ d k, m = .init d k) ∨
      (∃ s, m = .error s) ∨ (∃ k n, m = .streamSize k n) := by
  cases m with
  | push k v => exact Or.inl ⟨k, v, rfl⟩
  | init d k => exact Or.inr (Or.inl ⟨d, k, rfl⟩)
  | error s => exact Or.inr (Or.inr (Or.inl ⟨s, rfl⟩))
  | streamSize k n => exact Or.inr (Or.inr (Or.inr ⟨k, n, rfl⟩))

/-- C5: the claim states that every `SequenceNumber` occurring in a protocol
value is non-negative.  `SequenceNumber` is declared as `number` with no
sign restriction, so the concrete value `{value := 0, seq := -1}` is a
well-typed `SequenceValue`. -/
theorem claim5_counterexample :
    ¬ (∀ sv : SequenceValue Nat, 0 ≤ sv.seq) := by
  intro h
  have := h ⟨0, -1⟩
  simp at this

/-- C5 (amended): the types place no sign restriction on `SequenceNumber`:
every integer, negative ones included, occurs as the `seq` of a well-typed
`SequenceValue` and of a well-typed `get` message.  Non-negativity of
server-assigned sequence numbers is a contract of the (external) server,
not a property of these definitions. -/
theorem claim5_seq_unrestricted (n : Int) :
    (∃ sv : SequenceValue Nat, sv.seq = n) ∧
      ∃ m : MessageToDb Nat, m = .get "k" n :=
  ⟨⟨⟨0, n⟩, rfl⟩, ⟨.get "k" n, rfl⟩⟩

/-- C6: the connection status is exactly one of two shapes: disconnected
(`{connected:false}`, no other fields) or connected with a `debugUrl`
string. -/
theorem claim6_connectionStatus_variants (s : ConnectionStatus) :
    s = .disconnected ∨ ∃ url, s = .connected url := by
  cases s with
  | disconnected => exact Or.inl rfl
  | connected url => exact Or.inr ⟨url, rfl⟩

/-- C7: `voxelReducer` is a pure function of its two arguments: two runs on
equal states and equal actions return equal results, and the embedded
definition consumes nothing besides the state and the action. -/
theorem claim7_voxelReducer_pure (s1 s2 : VoxelRecord)
    (a1 a2 : VoxelAction) (hs : s1 = s2) (ha : a1 = a2) :
    voxelReducer s1 a1 = voxelReducer s2 a2 := by
  subst hs; subst ha; rfl

/-- C7 witness: both runs on the singleton state and an `add` action. -/
theorem claim7_voxelReducer_pure_witness :
    voxelReducer [] (.add ⟨(1, 2, 3), "#D33115", 1⟩) =
      voxelReducer [] (.add ⟨(1, 2, 3), "#D33115", 1⟩) :=
  claim7_voxelReducer_pure [] [] (.add ⟨(1, 2, 3), "#D33115", 1⟩)
    (.add ⟨(1, 2, 3), "#D33115", 1⟩) rfl rfl

/-- C8: adding at an occupied position overwrites it (last writer wins):
when `v1.position = v2.position`, adding `v1` and then `v2` yields the same
state as adding `v2` alone; in particular adding the same voxel twice
equals adding it once. -/
theorem claim8_add_last_writer_wins (s : VoxelRecord) (v1 v2 : Voxel)
    (h : v1.position = v2.position) :
    voxelReducer (voxelReducer s (.add v1)) (.add v2) =
        voxelReducer s (.add v2) ∧
      voxelReducer (voxelReducer s (.add v2)) (.add v2) =
        voxelReducer s (.add v2) := by
  constructor
  · simp only [voxelReducer, h]
    exact objSet_objSet s (posKey v2.position) v1 v2
  · simp only [voxelReducer]
    exact objSet_objSet s (posKey v2.position) v2 v2

/-- C8 witness: two voxels at position `(0,0,0)` with different colors, on
a state already holding an unrelated entry. -/
theorem claim8_add_last_writer_wins_witness :
    (voxelReducer (voxelReducer [("9:9:9", ⟨(9, 9, 9), "#000", 1⟩)]
          (.add ⟨(0, 0, 0), "#111", 1⟩)) (.add ⟨(0, 0, 0), "#222", 1⟩) =
        voxelReducer [("9:9:9", ⟨(9, 9, 9), "#000", 1⟩)]
          (.add ⟨(0, 0, 0), "#222", 1⟩)) ∧
      (voxelReducer (voxelReducer [("9:9:9", ⟨(9, 9, 9), "#000", 1⟩)]
          (.add ⟨(0, 0, 0), "#222", 1⟩)) (.add ⟨(0, 0, 0), "#222", 1⟩) =
        voxelReducer [("9:9:9", ⟨(9, 9, 9), "#000", 1⟩)]
          (.add ⟨(0, 0, 0), "#222", 1⟩)) :=
  claim8_add_last_writer_wins [("9:9:9", ⟨(9, 9, 9), "#000", 1⟩)]
    ⟨(0, 0, 0), "#111", 1⟩ ⟨(0, 0, 0), "#222", 1⟩ rfl

/-- C9: `remove` affects only the named entry: after
`voxelReducer s (remove n)` the key `n` is absent, every other key is
mapped exactly as in `s`, and when `n` was already absent the state is
returned unchanged (entry for entry). -/
theorem claim9_remove_frame (s : VoxelRecord) (n : String) :
    objLookup (voxelReducer s (.remove n)) n = none ∧
      (∀ k, k ≠ n →
        objLookup (voxelReducer s (.remove n)) k = objLookup s k) ∧
      (objLookup s n = none → voxelReducer s (.remove n) = s) := by
  refine ⟨objLookup_objDelete_self s n, fun k hk => ?_, fun h => ?_⟩
  · exact objLookup_objDelete_other s k n hk
  · exact objDelete_absent s n h

/-- C9 witness: removing `"a"` from a two-entry state, and removing an
absent name from it. -/
theorem claim9_remove_frame_witness :
    objLookup (voxelReducer
        [("a", ⟨(0, 0, 0), "#111", 1⟩), ("b", ⟨(1, 1, 1), "#222", 1⟩)]
        (.remove "a")) "a" = none ∧
      objLookup (voxelReducer
        [("a", ⟨(0, 0, 0), "#111", 1⟩), ("b", ⟨(1, 1, 1), "#222", 1⟩)]
        (.remove "a")) "b" =
        objLookup [("a", ⟨(0, 0, 0), "#111", 1⟩),
          ("b", ⟨(1, 1, 1), "#222", 1⟩)] "b" ∧
      voxelReducer [("a", ⟨(0, 0, 0), "#111", 1⟩),
          ("b", ⟨(1, 1, 1), "#222", 1⟩)] (.remove "c") =
        [("a", ⟨(0, 0, 0), "#111", 1⟩), ("b", ⟨(1, 1, 1), "#222", 1⟩)] :=
  ⟨(claim9_remove_frame
      [("a", ⟨(0, 0, 0), "#111", 1⟩), ("b", ⟨(1, 1, 1), "#222", 1⟩)] "a").1,
    (claim9_remove_frame
      [("a", ⟨(0, 0, 0), "#111", 1⟩), ("b", ⟨(1, 1, 1), "#222", 1⟩)] "a").2.1
      "b" (by decide),
    (claim9_remove_frame
      [("a", ⟨(0, 0, 0), "#111", 1⟩), ("b", ⟨(1, 1, 1), "#222", 1⟩)] "c").2.2
      (by decide)⟩

/-- C10: add followed by remove round-trips: when the key
`v.position.join(':')` is absent from `s`, applying `add v` and then
`remove (posKey v.position)` returns exactly `s`. -/
theorem claim10_add_remove_roundtrip (s : VoxelRecord) (v : Voxel)
    (h : objLookup s (posKey v.position) = none) :
    voxelReducer (voxelReducer s (.add v)) (.remove (posKey v.position)) =
      s := by
  simp only [voxelReducer]
  exact objDelete_objSet_absent s (posKey v.position) v h

/-- C10 witness: adding at `(0,0,0)` to a state holding only `"9:9:9"` and
then removing `"0:0:0"` restores the original state. -/
theorem claim10_add_remove_roundtrip_witness :
    voxelReducer (voxelReducer [("9:9:9", ⟨(9, 9, 9), "#000", 1⟩)]
        (.add ⟨(0, 0, 0), "#111", 1⟩))
        (.remove (posKey ((0 : Int), (0 : Int), (0 : Int)))) =
      [("9:9:9", ⟨(9, 9, 9), "#000", 1⟩)] :=
  claim10_add_remove_roundtrip [("9:9:9", ⟨(9, 9, 9), "#000", 1⟩)]
    ⟨(0, 0, 0), "#111", 1⟩ (by decide)

theorem insertPending_self_mem (v : SequenceValue V)
    (l : List (SequenceValue V)) : v ∈ insertPending v l := by
  induction l with
  | nil => simp [insertPending]
  | cons w rest ih =>
      by_cases h1 : v.seq < w.seq
      · simp [insertPending, h1]
      · by_cases h2 : v.seq = w.seq
        · simp [insertPending, h1, h2]
        · simp [insertPending, h1, h2]
          exact Or.inr ih

theorem drainPending_spec (h : Int) (l : List (SequenceValue V))
    (hs : seqSorted l) (ha : ∀ w ∈ l, h < w.seq) :
    h ≤ (drainPending h l).1 ∧ seqSorted (drainPending h l).2.1 ∧
      ∀ w ∈ (drainPending h l).2.1, h < w.seq := by
  induction l generalizing h with
  | nil => simp [drainPending]
  | cons w rest ih =>
      obtain ⟨hrel, hrest⟩ := List.pairwise_cons.mp hs
      by_cases hw : w.seq = h + 1
      · obtain ⟨ih1, ih2, ih3⟩ := ih w.seq hrest hrel
        refine ⟨?_, ?_, ?_⟩
        · simp only [drainPending, if_pos hw]
          omega
        · simp only [drainPending, if_pos hw]
          exact List.pairwise_cons.mpr ⟨ih3, ih2⟩
        · simp only [drainPending, if_pos hw]
          intro x hx
          rcases List.mem_cons.mp hx with rfl | hx
          · omega
          · have := ih3 x hx
            omega
      · simp [drainPending, hw]

/-- C2 (spec-modelled `onPush`): for every stream state satisfying the
buffer invariant and every incoming value, `onPush` case-splits exactly on
the value's seq against `highest_seen`: the successor seq is applied
immediately (heading the applied list) and `highest_seen` advances;
`seq ≤ highest_seen` is discarded as a duplicate with the state unchanged;
`seq > highest_seen + 1` is buffered (nothing applied) and a single
`get(key, highest_seen + 1)` is emitted; in all cases applied values are
drained in strictly increasing seq order and every applied seq exceeds the
old `highest_seen`, so no earlier value is applied twice. -/
theorem claim2_onPush_cases (key : String) (st : StreamState V)
    (v : SequenceValue V) (hinv : pendingInv st) : onPushClaim key st v := by
  obtain ⟨hsort, habove⟩ := hinv
  by_cases h1 : v.seq = st.highest_seen + 1
  · have hgap : ∀ w ∈ st.pending, v.seq < w.seq := by
      intro w hw
      have := habove w hw
      omega
    obtain ⟨d1, d2, d3⟩ := drainPending_spec v.seq st.pending hsort hgap
    refine ⟨fun hle => absurd h1 (by omega), fun _ => ⟨?_, ?_, ?_⟩,
      fun hgt => absurd h1 (by omega), ?_, ?_⟩
    · exact ⟨(drainPending v.seq st.pending).2.1, by simp [onPush, h1]⟩
    · simp only [onPush, if_pos h1]
      omega
    · simp [onPush, h1]
    · simp only [onPush, if_pos h1, seqSorted]
      exact List.pairwise_cons.mpr ⟨d3, d2⟩
    · simp only [onPush, if_pos h1]
      intro w hw
      rcases List.mem_cons.mp hw with rfl | hw
      · omega
      · have := d3 w hw
        omega
  · by_cases h2 : v.seq ≤ st.highest_seen
    · refine ⟨fun _ => by simp [onPush, h1, h2], fun he => absurd he h1,
        fun hgt => absurd hgt (by omega), ?_, ?_⟩
      · simp [onPush, h1, h2, seqSorted]
      · simp [onPush, h1, h2]
    · refine ⟨fun hle => absurd hle h2, fun he => absurd he h1,
        fun _ => ⟨?_, ?_, ?_⟩, ?_, ?_⟩
      · simp [onPush, h1, h2]
      · simp [onPush, h1, h2]
      · simp only [onPush, if_neg h1, if_neg h2]
        exact insertPending_self_mem v st.pending
      · simp [onPush, h1, h2, seqSorted]
      · simp [onPush, h1, h2]

/-- C2 witness: a stream at `highest_seen = 3` with seq 6 buffered,
receiving the successor value with seq 4. -/
theorem claim2_onPush_cases_witness :
    onPushClaim (V := Nat) "k" ⟨3, [⟨60, 6⟩]⟩ ⟨40, 4⟩ :=
  claim2_onPush_cases "k" ⟨3, [⟨60, 6⟩]⟩ ⟨40, 4⟩ (by decide)

/-- C3 (spec-modelled `onInit`): processing the same init backlog twice
yields exactly the same client state — stream bookkeeping, materialized
reducer state and applied trace — as processing it once, and, for a
backlog with strictly increasing seqs (the server contract), the applied
trace of the final materialization applies no seq more than once. -/
theorem claim3_onInit_idempotent (reduce : S → V → S) (ini : S)
    (c : KeyClient V S) (b : List (SequenceValue V)) :
    onInit reduce ini (onInit reduce ini c b) b = onInit reduce ini c b ∧
      (seqSorted b →
        ((onInit reduce ini c b).appliedLog.map SequenceValue.seq).Nodup) := by
  refine ⟨rfl, fun hb => ?_⟩
  exact List.pairwise_map.mpr (hb.imp fun h => ne_of_lt h)

/-- C3 witness: a two-entry backlog with seqs 1, 2 over the additive
reducer on naturals, delivered twice to a fresh client. -/
theorem claim3_onInit_idempotent_witness :
    onInit (fun s v => s + v) 0
        (onInit (fun s v => s + v) 0
          (⟨⟨0, []⟩, 0, []⟩ : KeyClient Nat Nat) [⟨10, 1⟩, ⟨20, 2⟩])
        [⟨10, 1⟩, ⟨20, 2⟩] =
      onInit (fun s v => s + v) 0 (⟨⟨0, []⟩, 0, []⟩ : KeyClient Nat Nat)
        [⟨10, 1⟩, ⟨20, 2⟩] ∧
      ((onInit (fun s v => s + v) 0
          (⟨⟨0, []⟩, 0, []⟩ : KeyClient Nat Nat)
          [⟨10, 1⟩, ⟨20, 2⟩]).appliedLog.map SequenceValue.seq).Nodup :=
  ⟨(claim3_onInit_idempotent (fun s v => s + v) 0 ⟨⟨0, []⟩, 0, []⟩
      [⟨10, 1⟩, ⟨20, 2⟩]).1,
    (claim3_onInit_idempotent (fun s v => s + v) 0 ⟨⟨0, []⟩, 0, []⟩
      [⟨10, 1⟩, ⟨20, 2⟩]).2 (by decide)⟩

end DriftDB
